import Mathlib

/-!
Shallow embedding of the address-resolution and bulk-aggregation pipeline of
`src/app.py` (Philadelphia assessment lookup).

Strings are modelled as `List Char` (`S`).  Python string methods used by the
source (`strip`, `split`, `upper`, `isdigit`, `join`, `endswith`, `replace`)
are embedded as executable functions over `S`; `str.upper` and `str.isdigit`
are modelled on their ASCII behaviour, which is the relevant domain for the
address text this program handles.  The remote CARTO HTTP service is modelled
as an oracle `Net` mapping the SQL text of a request to an HTTP response;
functions that may issue requests additionally return the list of SQL queries
they issued, which makes "no query is issued" and "exactly one lookup
sequence" provable statements.  Fallible code returns `Except`.
-/

namespace PhillyAssessment

set_option maxRecDepth 100000

/-- Strings of the embedded program. -/
abbrev S := List Char

/-- Converts a Lean string literal to the embedded string type. -/
def strL (s : String) : S := s.data

/-- The single-quote character (ASCII 39), written by code point. -/
def qc : Char := Char.ofNat 39

/-- Characters treated as whitespace by Python `str.strip` / `str.split()`. -/
def isPySpace (c : Char) : Bool :=
  c == ' ' || c == '\t' || c == '\n' || c == '\x0b' || c == '\x0c' || c == '\r'

/-- The ASCII lowercase letters paired with their uppercase forms. -/
def lowerUpper : List (Char × Char) :=
  [('a', 'A'), ('b', 'B'), ('c', 'C'), ('d', 'D'), ('e', 'E'), ('f', 'F'),
   ('g', 'G'), ('h', 'H'), ('i', 'I'), ('j', 'J'), ('k', 'K'), ('l', 'L'),
   ('m', 'M'), ('n', 'N'), ('o', 'O'), ('p', 'P'), ('q', 'Q'), ('r', 'R'),
   ('s', 'S'), ('t', 'T'), ('u', 'U'), ('v', 'V'), ('w', 'W'), ('x', 'X'),
   ('y', 'Y'), ('z', 'Z')]

/-- ASCII model of Python `str.upper` applied to one character. -/
def pyUpper (c : Char) : Char :=
  ((lowerUpper.find? (fun p => p.1 == c)).map (·.2)).getD c

/-- Python `str.lstrip` (whitespace). -/
def lstrip (l : S) : S := l.dropWhile isPySpace

/-- Python `str.rstrip` (whitespace). -/
def rstrip (l : S) : S := (l.reverse.dropWhile isPySpace).reverse

/-- Python `str.strip` (whitespace). -/
def pyStrip (l : S) : S := rstrip (lstrip l)

/-- Splits a list at every character satisfying `p`; the separators are
dropped and empty runs are kept, exactly like Python `str.split(sep)` with a
one-character separator applied at each matching position. -/
def splitOnPred (p : Char → Bool) : S → List S
  | [] => [[]]
  | c :: rest =>
    let r := splitOnPred p rest
    if p c then [] :: r
    else
      match r with
      | [] => [[c]]
      | w :: ws => (c :: w) :: ws

/-- Python `str.split()` with no separator: split on whitespace runs and drop
empty pieces. -/
def pyWords (s : S) : List S := (splitOnPred isPySpace s).filter (fun w => !w.isEmpty)

/-- Python `sep.join(pieces)`. -/
def joinWith (sep : S) : List S → S
  | [] => []
  | [w] => w
  | w :: x :: xs => w ++ sep ++ joinWith sep (x :: xs)

/-- ASCII model of Python `str.isdigit`: nonempty and all decimal digits. -/
def pyIsDigit (w : S) : Bool := !w.isEmpty && w.all Char.isDigit

/-- Python `str(int(w))` for a string of decimal digits: the canonical decimal
form, i.e. leading zeros stripped (a run of only zeros collapses to "0"). -/
def pyIntStr (w : S) : S :=
  let t := w.dropWhile (fun c => c == '0')
  if t.isEmpty then ['0'] else t

/-- The house-number step of the normalizer applied to the word list `parts`:
`if parts and parts[0].isdigit(): parts[0] = str(int(parts[0]))`. -/
def fixHead : List S → List S
  | [] => []
  | p :: rest => if pyIsDigit p then pyIntStr p :: rest else p :: rest

/-- The ordered street-suffix substitution table `suffix_map` of the source,
long form first, iterated in insertion order. -/
def suffix_map : List (S × S) :=
  [(strL " STREET", strL " ST"),
   (strL " AVENUE", strL " AVE"),
   (strL " BOULEVARD", strL " BLVD"),
   (strL " ROAD", strL " RD"),
   (strL " DRIVE", strL " DR"),
   (strL " PLACE", strL " PL"),
   (strL " COURT", strL " CT"),
   (strL " LANE", strL " LN"),
   (strL " TERRACE", strL " TER")]

/-- First-match-wins suffix substitution: scan the table in order, replace the
first long form that is a suffix of `a`, then stop. -/
def applySuffix (a : S) : List (S × S) → S
  | [] => a
  | pr :: rest =>
    if pr.1.isSuffixOf a then a.take (a.length - pr.1.length) ++ pr.2
    else applySuffix a rest

/-- Python `a.replace(chr(39), chr(39)*2)`: double every single quote. -/
def escapeQuotes (a : S) : S := a.flatMap (fun c => if c == qc then [qc, qc] else [c])

/-- The portion of the stripped input before the first comma:
`address.strip().split(",")[0]`. -/
def preComma (address : S) : S := (pyStrip address).takeWhile (fun c => c != ',')

/-- Embedding of `normalize_address_for_search` from `src/app.py`. -/
def normalize_address_for_search (address : S) : S :=
  if address.isEmpty then []
  else
    let a := preComma address
    if a.isEmpty then []
    else
      let a := a.map pyUpper
      let a := joinWith [' '] (fixHead (pyWords a))
      let a := applySuffix a suffix_map
      let a := escapeQuotes a
      '%' :: a ++ ['%']

/-- The underlying address text of a pattern: the pattern without its leading
and trailing wildcard marker. -/
def unwrapPattern (p : S) : S := (p.drop 1).dropLast

/-- Characters left fixed by the normalizer core: unchanged by uppercasing,
not a comma, not a single quote. -/
def fixedChar (c : Char) : Prop := pyUpper c = c ∧ c ≠ ',' ∧ c ≠ qc

instance (c : Char) : Decidable (fixedChar c) := by
  unfold fixedChar
  infer_instance

/-- A word as the normalizer core produces it: nonempty, without whitespace,
all characters fixed. -/
def goodWord (w : S) : Prop :=
  w ≠ [] ∧ ∀ c ∈ w, (isPySpace c = false ∧ fixedChar c)

instance (w : S) : Decidable (goodWord w) := by
  unfold goodWord
  infer_instance

/-- The maximal run of non-whitespace characters at the end of a string, in
reverse order. -/
def trailingRun (l : S) : S := l.reverse.takeWhile (fun c => !isPySpace c)

/-! ## JSON values, rows, and the remote service -/

/-- Values appearing in the field mappings returned by the CARTO service:
strings, numbers (integral tax years and assessment values) and JSON null
(Python `None`, also used for a `dict.get` miss). -/
inductive JVal
  | str (s : S)
  | num (n : Int)
  | null
  deriving DecidableEq

/-- One row of a CARTO response: a Python dict, modelled as an association
list in key-insertion order. -/
abbrev Row := List (S × JVal)

/-- Decidable equality of fallible results, for concrete evaluation. -/
instance {ε α : Type} [DecidableEq ε] [DecidableEq α] :
    DecidableEq (Except ε α) := fun a b =>
  match a, b with
  | .error e, .error f =>
    if h : e = f then .isTrue (by rw [h]) else .isFalse (by simp [h])
  | .error _, .ok _ => .isFalse (by simp)
  | .ok _, .error _ => .isFalse (by simp)
  | .ok x, .ok y =>
    if h : x = y then .isTrue (by rw [h]) else .isFalse (by simp [h])

/-- Python `d.get(k)`: the value at `k`, or absent. -/
def dictGet (r : Row) (k : S) : Option JVal :=
  (r.find? (fun kv => kv.1 == k)).map (·.2)

/-- Python `d[k] = v`: update the value in place if the key exists (keeping
its position), else append the pair, exactly as dict insertion order works. -/
def dictSet (r : Row) (k : S) (v : JVal) : Row :=
  match r with
  | [] => [(k, v)]
  | kv :: rest => if kv.1 == k then (k, v) :: rest else kv :: dictSet rest k v

/-- Python truthiness of the values that reach `if not parcel_number`:
`None` and empty strings are falsy, as is the number 0. -/
def truthy : JVal → Bool
  | .str s => !s.isEmpty
  | .num n => n != 0
  | .null => false

/-- Python `str(...)` rendering of a value interpolated into an f-string. -/
def pyToStr : JVal → S
  | .str s => s
  | .num n => (toString n).data
  | .null => strL "None"

/-- An HTTP response of the CARTO endpoint: status code, raw body text (used
in the error message), and the parsed JSON body's `rows` key when present. -/
structure HttpResp where
  status : Nat
  text : S
  rows? : Option (List Row)

/-- The remote service as an oracle from the SQL text of a request to its
HTTP response (`requests.get(CARTO_SQL_URL, params=...)`). -/
abbrev Net := S → HttpResp

/-- The message of the `RuntimeError` raised by `call_carto` on a non-200
status: `f"Carto API error {resp.status_code}: {resp.text}"`. -/
def cartoErrMsg (status : Nat) (text : S) : S :=
  strL "Carto API error " ++ (toString status).data ++ strL ": " ++ text

/-- Embedding of `call_carto` from `src/app.py`: raise on a non-200 status,
else return the parsed JSON body (its `rows` key, possibly absent). -/
def call_carto (net : Net) (sql : S) : Except S (Option (List Row)) :=
  let resp := net sql
  if resp.status != 200 then .error (cartoErrMsg resp.status resp.text)
  else .ok resp.rows?

/-- The SQL text built by `find_parcel_for_address` (the f-string verbatim,
with the single quotes written via `qc`). -/
def parcel_sql (pattern : S) : S :=
  strL "\n        SELECT\n            parcel_number,\n            location AS full_address,\n            zip_code\n        FROM opa_properties_public_pde\n        WHERE location ILIKE " ++
    [qc] ++ pattern ++ [qc] ++
    strL "\n        ORDER BY parcel_number\n        LIMIT 1\n    "

/-- The SQL text built by `get_assessments_for_parcel` (the f-string
verbatim). -/
def assess_sql (parcel_number : S) (years_clause : S) : S :=
  strL "\n        SELECT *\n        FROM assessments\n        WHERE parcel_number = " ++
    [qc] ++ parcel_number ++ [qc] ++
    strL "\n          AND year IN (" ++ years_clause ++
    strL ")\n        ORDER BY year\n    "

/-- Insertion of an integer into an ascending sorted list. -/
def insertSorted (y : Int) : List Int → List Int
  | [] => [y]
  | x :: xs => if y ≤ x then y :: x :: xs else x :: insertSorted y xs

/-- Ascending insertion sort, modelling Python `sorted`. -/
def sortInts (l : List Int) : List Int := l.foldr insertSorted []

/-- Deduplication pass keeping elements not seen before, in order. -/
def dedupSeen {α : Type} [DecidableEq α] : List α → List α → List α
  | [], _ => []
  | a :: l, seen => if a ∈ seen then dedupSeen l seen else a :: dedupSeen l (a :: seen)

/-- Deduplication keeping the first occurrence of each element, modelling the
iteration order of Python `set(...)`
as consumed by `sorted` (the order does not matter there) and of
`dict.fromkeys(...)` (where it does). -/
def dedupKeepFirst {α : Type} [DecidableEq α] (l : List α) : List α :=
  dedupSeen l []

/-- Embedding of `find_parcel_for_address` from `src/app.py`.  The second
component is the list of SQL queries issued during the call. -/
def find_parcel_for_address (net : Net) (address : S) :
    Except S (Option Row) × List S :=
  let pattern := normalize_address_for_search address
  if pattern.isEmpty then (.ok none, [])
  else
    let sql := parcel_sql pattern
    match call_carto net sql with
    | .error e => (.error e, [sql])
    | .ok data =>
      let rows := data.getD []
      (.ok rows.head?, [sql])

/-- Embedding of `get_assessments_for_parcel` from `src/app.py`.  The
`parcel_number` argument is the value obtained by `parcel_row.get(...)`, so
it may be `null`; the source guards with `if not parcel_number`. -/
def get_assessments_for_parcel (net : Net) (parcel_number : JVal)
    (years : List Int) : Except S (List Row) × List S :=
  if !truthy parcel_number then (.ok [], [])
  else
    let years_clause := joinWith (strL ", ")
      ((sortInts (dedupKeepFirst years)).map (fun y => (toString y).data))
    let sql := assess_sql (pyToStr parcel_number) years_clause
    match call_carto net sql with
    | .error e => (.error e, [sql])
    | .ok data => (.ok (data.getD []), [sql])

/-- Embedding of `lookup_single_address` from `src/app.py`: any error raised
by the two remote calls is caught here and converted into a single note row;
otherwise one merged row per assessment record is produced.  Python's
`if not parcel_row` is dict falsiness, so both `None` (no row at all) and an
empty row dict fall into the "No parcel found" branch.  The second component
is the list of SQL queries issued. -/
def lookup_single_address (net : Net) (address : S) (years : List Int) :
    List Row × List S :=
  let fp := find_parcel_for_address net address
  match fp.1 with
  | .error e =>
    ([[(strL "input_address", .str address),
       (strL "note", .str (strL "Error looking up parcel: " ++ e))]], fp.2)
  | .ok none =>
    ([[(strL "input_address", .str address),
       (strL "note", .str (strL "No parcel found for this address"))]], fp.2)
  | .ok (some parcel_row) =>
    if parcel_row.isEmpty then
      ([[(strL "input_address", .str address),
         (strL "note", .str (strL "No parcel found for this address"))]], fp.2)
    else
    let parcel_number := (dictGet parcel_row (strL "parcel_number")).getD .null
    let full_address := (dictGet parcel_row (strL "full_address")).getD .null
    let zip_code := (dictGet parcel_row (strL "zip_code")).getD .null
    let ga := get_assessments_for_parcel net parcel_number years
    match ga.1 with
    | .error e =>
      ([[(strL "input_address", .str address),
         (strL "parcel_number", parcel_number),
         (strL "full_address", full_address),
         (strL "zip_code", zip_code),
         (strL "note", .str (strL "Error looking up assessments: " ++ e))]],
       fp.2 ++ ga.2)
    | .ok assessments =>
      if assessments.isEmpty then
        ([[(strL "input_address", .str address),
           (strL "parcel_number", parcel_number),
           (strL "full_address", full_address),
           (strL "zip_code", zip_code),
           (strL "note",
            .str (strL "Parcel found, but no assessment records for selected years"))]],
         fp.2 ++ ga.2)
      else
        (assessments.map (fun a =>
          dictSet (dictSet (dictSet (dictSet a
            (strL "input_address") (.str address))
            (strL "parcel_number") parcel_number)
            (strL "full_address") full_address)
            (strL "zip_code") zip_code),
         fp.2 ++ ga.2)

/-- The deduplicated address list of `build_results`:
`[a for a in dict.fromkeys(a.strip() for a in addresses) if a.strip()]`. -/
def uniqueAddresses (addresses : List S) : List S :=
  (dedupKeepFirst (addresses.map pyStrip)).filter (fun a => !(pyStrip a).isEmpty)

/-- The aggregated table: an ordered list of column names plus the collected
rows, modelling the `pandas.DataFrame` the source builds from a list of
dicts. -/
structure DataFrame where
  cols : List S
  rows : List Row
  deriving DecidableEq

/-- Column inference of `pd.DataFrame(rows)` for a list of dicts: the union
of the rows' keys in order of first appearance. -/
def firstSeenCols (rows : List Row) : List S :=
  rows.foldl (fun acc r =>
    r.foldl (fun acc kv => if kv.1 ∈ acc then acc else acc ++ [kv.1]) acc) []

/-- The `preferred_order` list of `build_results`. -/
def preferred_order : List S :=
  [strL "input_address", strL "parcel_number", strL "full_address",
   strL "zip_code", strL "year", strL "note"]

/-- The `front` column block: `[c for c in preferred_order if c in cols]`. -/
def frontCols (cols : List S) : List S :=
  preferred_order.filter (fun c => decide (c ∈ cols))

/-- The `rest` column block: `[c for c in cols if c not in front]`. -/
def restCols (cols front : List S) : List S :=
  cols.filter (fun c => decide (c ∉ front))

/-- Embedding of `build_results` from `src/app.py`.  The result is the
reordered table, the batch error list and the list of all SQL queries issued.
The `try/except` around `lookup_single_address` in the source cannot fire in
this model because `lookup_single_address` already catches every error of the
two remote calls and is total, so the per-address loop is the plain
concatenation of the per-address row lists (progress reporting is UI-only and
not modelled). -/
def build_results (net : Net) (addresses : List S) (years : List Int) :
    DataFrame × List S × List S :=
  let unique_addresses := uniqueAddresses addresses
  if unique_addresses.isEmpty then
    (⟨[], []⟩, [strL "No addresses provided"], [])
  else
    let step := unique_addresses.map (fun addr => lookup_single_address net addr years)
    let rows := (step.map Prod.fst).flatten
    let queries := (step.map Prod.snd).flatten
    if rows.isEmpty then (⟨[], []⟩, [], queries)
    else
      let cols := firstSeenCols rows
      let front := frontCols cols
      let rest := restCols cols front
      (⟨front ++ rest, rows⟩, [], queries)

/-! ## Grand total (results section of the Streamlit page) -/

/-- The `market_value` column of the table as pandas sees it: one value per
row, a missing key read as NaN/null. -/
def marketCol (df : DataFrame) : List JVal :=
  df.rows.map (fun r => (dictGet r (strL "market_value")).getD .null)

/-- Model of `pd.api.types.is_numeric_dtype` for a column built from JSON
values: every entry is a number or null, and at least one is a number (a
column holding any string is object dtype, and so is an all-null column). -/
def isNumericCol (vals : List JVal) : Bool :=
  vals.all (fun v => match v with | .num _ => true | .null => true | .str _ => false) &&
    vals.any (fun v => match v with | .num _ => true | _ => false)

/-- Model of `dropna().astype(float).sum()`: the sum of the numeric entries,
null entries excluded. -/
def sumNonNull (vals : List JVal) : Int :=
  (vals.filterMap (fun v => match v with | .num n => some n | _ => none)).sum

/-- Embedding of the grand-total computation of the results section:
`some total` when the `market_value` column exists and is numeric, `none`
when the page instead states that the total cannot be calculated. -/
def grand_total (df : DataFrame) : Option Int :=
  if strL "market_value" ∈ df.cols && isNumericCol (marketCol df) then
    some (sumNonNull (marketCol df))
  else none

/-! ## Concrete witness data: a resolved parcel with assessments -/

/-- The normalized pattern of "780 Union Street". -/
def pat780 : S := strL "%780 UNION ST%"

/-- A parcel row as returned by the registry query. -/
def prow780 : Row :=
  [(strL "parcel_number", .str (strL "780123")),
   (strL "full_address", .str (strL "780 UNION ST")),
   (strL "zip_code", .str (strL "19104"))]

/-- Assessment rows for the parcel; the first one carries its own
`parcel_number` field, which the merge must override. -/
def arowsConflict : List Row :=
  [[(strL "year", .num 2025),
    (strL "parcel_number", .str (strL "SHOULD BE OVERRIDDEN")),
    (strL "market_value", .num 100000)],
   [(strL "year", .num 2026), (strL "market_value", .num 250000)]]

/-- A service on which no address matches any parcel. -/
def netNoParcel : Net := fun _ => ⟨200, [], some []⟩

/-- A service whose parcel query returns one EMPTY row dict; Python dict
falsiness makes the program treat it as "no parcel found". -/
def netEmptyDict : Net := fun _ => ⟨200, [], some [[]]⟩

/-- A service that resolves the 780 Union Street pattern but has no
assessment rows. -/
def netEmptyAssess : Net := fun sql =>
  if sql = parcel_sql pat780 then ⟨200, [], some [prow780]⟩
  else ⟨200, [], some []⟩

/-- A service that resolves the 780 Union Street pattern and returns two
assessment rows. -/
def netFull : Net := fun sql =>
  if sql = parcel_sql pat780 then ⟨200, [], some [prow780]⟩
  else ⟨200, [], some arowsConflict⟩

/-- Parcel rows for a three-address batch. -/
def prowA : Row := [(strL "parcel_number", .str (strL "111"))]

/-- Parcel row of the middle address whose assessment fetch will fail. -/
def prowB : Row := [(strL "parcel_number", .str (strL "222"))]

/-- Parcel row of the third address. -/
def prowC : Row := [(strL "parcel_number", .str (strL "333"))]

/-- A service for a batch [A, B, C] in which every parcel resolves but the
assessment fetch for B's parcel (number 222) fails with an HTTP 500. -/
def netABC : Net := fun sql =>
  if sql = parcel_sql (strL "%1 A ST%") then ⟨200, [], some [prowA]⟩
  else if sql = parcel_sql (strL "%2 B ST%") then ⟨200, [], some [prowB]⟩
  else if sql = parcel_sql (strL "%3 C ST%") then ⟨200, [], some [prowC]⟩
  else if sql = assess_sql (strL "222") (strL "2025") then ⟨500, strL "boom", none⟩
  else ⟨200, [], some [[(strL "year", .num 2025), (strL "market_value", .num 100000)]]⟩

/-- A service for a two-address batch: the first address matches no parcel
(so its row carries only the note), the second resolves with assessment
rows (so the batch gains a non-preferred `market_value` column). -/
def netC3 : Net := fun sql =>
  if sql = parcel_sql (strL "%1 NOWHERE ST%") then ⟨200, [], some []⟩
  else if sql = parcel_sql pat780 then ⟨200, [], some [prow780]⟩
  else ⟨200, [], some arowsConflict⟩

/-- Column order stated by the amended claim C3: the identifying columns
(including the note column) in preferred order first, then the remaining
columns in first-seen order. -/
def specColOrder (rows : List Row) : List S :=
  frontCols (firstSeenCols rows) ++
    (firstSeenCols rows).filter (fun c => decide (c ∉ preferred_order))

/-! ## Helper lemmas -/

theorem dictGet_nil (k : S) : dictGet [] k = none := rfl

theorem dictGet_cons (kv : S × JVal) (r : Row) (k : S) :
    dictGet (kv :: r) k = if kv.1 == k then some kv.2 else dictGet r k := by
  by_cases h : (kv.1 == k) = true
  · simp [dictGet, List.find?_cons_of_pos _ h, h]
  · simp [dictGet, List.find?_cons_of_neg _ h, h]

theorem dictGet_dictSet_self (r : Row) (k : S) (v : JVal) :
    dictGet (dictSet r k v) k = some v := by
  induction r with
  | nil => simp [dictSet, dictGet_cons, dictGet_nil]
  | cons kv rest ih =>
    by_cases h : kv.1 = k
    · simp [dictSet, h, dictGet_cons]
    · simp [dictSet, h, dictGet_cons, ih]

theorem dictGet_dictSet_ne (r : Row) (k k' : S) (v : JVal) (h : k' ≠ k) :
    dictGet (dictSet r k v) k' = dictGet r k' := by
  induction r with
  | nil => simp [dictSet, dictGet_cons, dictGet_nil, Ne.symm h]
  | cons kv rest ih =>
    by_cases hk : kv.1 = k
    · simp [dictSet, hk, dictGet_cons, Ne.symm h]
    · simp [dictSet, hk, dictGet_cons, ih]

theorem dropWhile_idem (p : Char → Bool) (l : S) :
    (l.dropWhile p).dropWhile p = l.dropWhile p := by
  induction l with
  | nil => rfl
  | cons a t ih =>
    by_cases h : p a = true
    · simp [List.dropWhile_cons, h, ih]
    · simp [List.dropWhile_cons, h]

theorem dropWhile_head_false (p : Char → Bool) :
    ∀ (l : S) (c : Char) (t : S), l.dropWhile p = c :: t → p c = false := by
  intro l
  induction l with
  | nil => intro c t h; cases h
  | cons a l ih =>
    intro c t h
    by_cases ha : p a = true
    · rw [List.dropWhile_cons, if_pos ha] at h
      exact ih c t h
    · rw [List.dropWhile_cons, if_neg ha] at h
      cases h
      simpa using ha

theorem rstrip_append (x : S) :
    x = rstrip x ++ (x.reverse.takeWhile isPySpace).reverse :=
  calc x = x.reverse.reverse := (List.reverse_reverse x).symm
  _ = (x.reverse.takeWhile isPySpace ++ x.reverse.dropWhile isPySpace).reverse := by
      rw [List.takeWhile_append_dropWhile]
  _ = (x.reverse.dropWhile isPySpace).reverse ++ (x.reverse.takeWhile isPySpace).reverse := by
      rw [List.reverse_append]
  _ = rstrip x ++ (x.reverse.takeWhile isPySpace).reverse := rfl

theorem rstrip_idem (l : S) : rstrip (rstrip l) = rstrip l := by
  unfold rstrip
  rw [List.reverse_reverse, dropWhile_idem]

theorem lstrip_rstrip_lstrip (l : S) :
    lstrip (rstrip (lstrip l)) = rstrip (lstrip l) := by
  cases h : rstrip (lstrip l) with
  | nil => rfl
  | cons c t =>
    have hx := rstrip_append (lstrip l)
    rw [h] at hx
    have hc : isPySpace c = false := by
      have hd : List.dropWhile isPySpace l =
          c :: (t ++ ((lstrip l).reverse.takeWhile isPySpace).reverse) := by
        simpa [lstrip] using hx
      exact dropWhile_head_false isPySpace l c _ hd
    simp [lstrip, List.dropWhile_cons, hc]

theorem pyStrip_idem (l : S) : pyStrip (pyStrip l) = pyStrip l := by
  unfold pyStrip
  rw [lstrip_rstrip_lstrip, rstrip_idem]

theorem mem_dedupSeen {α : Type} [DecidableEq α] :
    ∀ (l seen : List α) (x : α), x ∈ dedupSeen l seen ↔ (x ∈ l ∧ x ∉ seen) := by
  intro l
  induction l with
  | nil => simp [dedupSeen]
  | cons a t ih =>
    intro seen x
    simp only [dedupSeen]
    by_cases ha : a ∈ seen
    · rw [if_pos ha, ih]
      constructor
      · rintro ⟨hx, hs⟩
        exact ⟨List.mem_cons_of_mem a hx, hs⟩
      · rintro ⟨hx, hs⟩
        rcases List.mem_cons.mp hx with rfl | hx
        · exact absurd ha hs
        · exact ⟨hx, hs⟩
    · rw [if_neg ha]
      simp only [List.mem_cons, ih]
      constructor
      · rintro (rfl | ⟨hx, hs⟩)
        · exact ⟨Or.inl rfl, ha⟩
        · exact ⟨Or.inr hx, fun hmem => hs (Or.inr hmem)⟩
      · rintro ⟨rfl | hx, hs⟩
        · exact Or.inl rfl
        · by_cases hxa : x = a
          · exact Or.inl hxa
          · exact Or.inr ⟨hx, by simp [hxa, hs]⟩

theorem nodup_dedupSeen {α : Type} [DecidableEq α] :
    ∀ (l seen : List α), (dedupSeen l seen).Nodup := by
  intro l
  induction l with
  | nil => intro seen; simp [dedupSeen]
  | cons a t ih =>
    intro seen
    simp only [dedupSeen]
    by_cases ha : a ∈ seen
    · rw [if_pos ha]; exact ih seen
    · rw [if_neg ha]
      refine List.nodup_cons.mpr ⟨?_, ih _⟩
      rw [mem_dedupSeen]
      rintro ⟨-, h⟩
      exact h (List.mem_cons_self a _)

theorem dedupSeen_sublist {α : Type} [DecidableEq α] :
    ∀ (l seen : List α), List.Sublist (dedupSeen l seen) l := by
  intro l
  induction l with
  | nil => intro seen; simp [dedupSeen]
  | cons a t ih =>
    intro seen
    simp only [dedupSeen]
    by_cases ha : a ∈ seen
    · rw [if_pos ha]
      exact (ih seen).trans (List.sublist_cons_self a t)
    · rw [if_neg ha]
      exact (ih (a :: seen)).cons₂ a

theorem dedupSeen_of_nodup {α : Type} [DecidableEq α] :
    ∀ (l seen : List α), l.Nodup → (∀ x ∈ l, x ∉ seen) → dedupSeen l seen = l := by
  intro l
  induction l with
  | nil => intro seen _ _; rfl
  | cons a t ih =>
    intro seen hnd hs
    have ha : a ∉ seen := hs a (List.mem_cons_self a t)
    simp only [dedupSeen, if_neg ha]
    congr 1
    refine ih (a :: seen) (List.nodup_cons.mp hnd).2 ?_
    intro x hx
    rcases List.nodup_cons.mp hnd with ⟨hat, -⟩
    intro hmem
    rcases List.mem_cons.mp hmem with rfl | hmem
    · exact hat hx
    · exact hs x (List.mem_cons_of_mem a hx) hmem

theorem mem_uniqueAddresses (addresses : List S) (s : S) :
    s ∈ uniqueAddresses addresses ↔ (s ≠ [] ∧ s ∈ addresses.map pyStrip) := by
  unfold uniqueAddresses dedupKeepFirst
  rw [List.mem_filter]
  constructor
  · rintro ⟨hmem, hpred⟩
    have hm := (mem_dedupSeen _ _ _).mp hmem
    have hstrip : pyStrip s = s := by
      obtain ⟨a, -, rfl⟩ := List.mem_map.mp hm.1
      exact pyStrip_idem a
    refine ⟨?_, hm.1⟩
    intro hnil
    rw [hnil] at hpred
    simp [pyStrip, lstrip, rstrip] at hpred
  · rintro ⟨hne, hmem⟩
    have hstrip : pyStrip s = s := by
      obtain ⟨a, -, rfl⟩ := List.mem_map.mp hmem
      exact pyStrip_idem a
    refine ⟨(mem_dedupSeen _ _ _).mpr ⟨hmem, List.not_mem_nil s⟩, ?_⟩
    rw [hstrip]
    simpa using hne

theorem uniqueAddresses_blank (addresses : List S)
    (h : ∀ a ∈ addresses, pyStrip a = []) : uniqueAddresses addresses = [] := by
  rw [List.eq_nil_iff_forall_not_mem]
  intro s hs
  rw [mem_uniqueAddresses] at hs
  obtain ⟨a, ha, rfl⟩ := List.mem_map.mp hs.2
  exact hs.1 (h a ha)

theorem uniqueAddresses_idem (addresses : List S) :
    uniqueAddresses (uniqueAddresses addresses) = uniqueAddresses addresses := by
  have hstrip : ∀ s ∈ uniqueAddresses addresses, pyStrip s = s := by
    intro s hs
    obtain ⟨a, -, rfl⟩ := List.mem_map.mp ((mem_uniqueAddresses addresses s).mp hs).2
    exact pyStrip_idem a
  have hmap : (uniqueAddresses addresses).map pyStrip = uniqueAddresses addresses := by
    simpa using List.map_congr_left hstrip
  have hnodup : (uniqueAddresses addresses).Nodup :=
    (nodup_dedupSeen (addresses.map pyStrip) []).filter _
  conv_lhs => rw [uniqueAddresses, dedupKeepFirst, hmap]
  rw [dedupSeen_of_nodup _ _ hnodup (fun x _ => List.not_mem_nil x)]
  refine List.filter_eq_self.mpr ?_
  intro s hs
  rw [hstrip s hs]
  have := ((mem_uniqueAddresses addresses s).mp hs).1
  simpa using this

theorem lookup_ne_nil (net : Net) (a : S) (years : List Int) :
    (lookup_single_address net a years).1 ≠ [] := by
  simp only [lookup_single_address]
  split
  · simp
  · simp
  · split
    · simp
    · split
      · simp
      · split
        · simp
        · intro hnil
          simp only [List.map_eq_nil_iff] at hnil
          simp_all

theorem lookup_row_input_address (net : Net) (a : S) (years : List Int) :
    ∀ r ∈ (lookup_single_address net a years).1,
      dictGet r (strL "input_address") = some (.str a) := by
  intro r hr
  simp only [lookup_single_address] at hr
  split at hr
  · simp only [List.mem_singleton] at hr
    subst hr
    simp [dictGet_cons]
  · simp only [List.mem_singleton] at hr
    subst hr
    simp [dictGet_cons]
  · split at hr
    · simp only [List.mem_singleton] at hr
      subst hr
      simp [dictGet_cons]
    · split at hr
      · simp only [List.mem_singleton] at hr
        subst hr
        simp [dictGet_cons]
      · split at hr
        · simp only [List.mem_singleton] at hr
          subst hr
          simp [dictGet_cons]
        · simp only [List.mem_map] at hr
          obtain ⟨x, -, rfl⟩ := hr
          rw [dictGet_dictSet_ne _ _ _ _ (by decide), dictGet_dictSet_ne _ _ _ _ (by decide),
            dictGet_dictSet_ne _ _ _ _ (by decide), dictGet_dictSet_self]

theorem lookup_of_fp_none (net : Net) (address : S) (years : List Int)
    (h : (find_parcel_for_address net address).1 = .ok none) :
    (lookup_single_address net address years).1 =
      [[(strL "input_address", .str address),
        (strL "note", .str (strL "No parcel found for this address"))]] := by
  simp only [lookup_single_address]
  rw [h]

theorem lookup_of_fp_empty (net : Net) (address : S) (years : List Int)
    (h : (find_parcel_for_address net address).1 = .ok (some [])) :
    (lookup_single_address net address years).1 =
      [[(strL "input_address", .str address),
        (strL "note", .str (strL "No parcel found for this address"))]] := by
  simp only [lookup_single_address]
  rw [h]
  rfl

theorem lookup_of_no_assessments (net : Net) (address : S) (years : List Int)
    (prow : Row) (hprow : prow ≠ [])
    (hfp : (find_parcel_for_address net address).1 = .ok (some prow))
    (hga : (get_assessments_for_parcel net
      ((dictGet prow (strL "parcel_number")).getD .null) years).1 = .ok []) :
    (lookup_single_address net address years).1 =
      [[(strL "input_address", .str address),
        (strL "parcel_number", (dictGet prow (strL "parcel_number")).getD .null),
        (strL "full_address", (dictGet prow (strL "full_address")).getD .null),
        (strL "zip_code", (dictGet prow (strL "zip_code")).getD .null),
        (strL "note",
         .str (strL "Parcel found, but no assessment records for selected years"))]] := by
  have hpe : prow.isEmpty = false := by
    cases prow with
    | nil => exact absurd rfl hprow
    | cons _ _ => rfl
  simp only [lookup_single_address]
  rw [hfp]
  simp only []
  rw [if_neg (by simp [hpe])]
  rw [hga]
  rfl

theorem lookup_of_merge (net : Net) (address : S) (years : List Int)
    (prow : Row) (arows : List Row) (hprow : prow ≠ [])
    (hfp : (find_parcel_for_address net address).1 = .ok (some prow))
    (hga : (get_assessments_for_parcel net
      ((dictGet prow (strL "parcel_number")).getD .null) years).1 = .ok arows)
    (hne : arows ≠ []) :
    (lookup_single_address net address years).1 =
      arows.map (fun a =>
        dictSet (dictSet (dictSet (dictSet a
          (strL "input_address") (.str address))
          (strL "parcel_number") ((dictGet prow (strL "parcel_number")).getD .null))
          (strL "full_address") ((dictGet prow (strL "full_address")).getD .null))
          (strL "zip_code") ((dictGet prow (strL "zip_code")).getD .null)) := by
  have hne' : arows.isEmpty = false := by
    cases arows with
    | nil => exact absurd rfl hne
    | cons a l => rfl
  have hpe : prow.isEmpty = false := by
    cases prow with
    | nil => exact absurd rfl hprow
    | cons _ _ => rfl
  simp only [lookup_single_address]
  rw [hfp]
  simp only []
  rw [if_neg (by simp [hpe])]
  rw [hga]
  simp [hne']

/-! ## Claim C6: remote call failure typing -/

/-- Claim C6 as stated is false: the response body in the error message is
NOT truncated to any bounded length — the message grows without bound with
the body, because the source interpolates `resp.text` whole. -/
theorem C6_counterexample :
    ¬ ∃ B : Nat, ∀ text : S,
      ∃ e, call_carto (fun _ => ⟨500, text, none⟩) [] = .error e ∧
        e.length ≤ B := by
  rintro ⟨B, h⟩
  obtain ⟨e, he, hlen⟩ := h (List.replicate (B + 1) 'a')
  simp only [call_carto, cartoErrMsg] at he
  rw [if_pos (by decide)] at he
  have : e = cartoErrMsg 500 (List.replicate (B + 1) 'a') := by
    simpa [cartoErrMsg] using he.symm
  subst this
  simp [cartoErrMsg, List.length_append, List.length_replicate] at hlen
  omega

/-- Claim C6 (amended): on a non-success HTTP status, `call_carto` raises a
typed failure whose message carries the status code and the FULL response
body (the source does not truncate `resp.text`); on a success status it
returns the parsed body and does not raise. -/
theorem C6_call_carto (net : Net) (sql : S) :
    ((net sql).status ≠ 200 →
      call_carto net sql = .error (cartoErrMsg (net sql).status (net sql).text) ∧
      (net sql).text <:+ cartoErrMsg (net sql).status (net sql).text ∧
      (strL "Carto API error " ++ (toString (net sql).status).data) <+:
        cartoErrMsg (net sql).status (net sql).text ∧
      ((net sql).text).length ≤ (cartoErrMsg (net sql).status (net sql).text).length) ∧
    ((net sql).status = 200 → call_carto net sql = .ok (net sql).rows?) := by
  constructor
  · intro h
    refine ⟨?_, ?_, ?_, ?_⟩
    · simp [call_carto, h]
    · simpa [cartoErrMsg, List.append_assoc] using
        List.suffix_append (strL "Carto API error " ++ (toString (net sql).status).data ++ strL ": ")
          (net sql).text
    · simp [cartoErrMsg, List.append_assoc, List.prefix_append]
    · simp [cartoErrMsg, List.length_append]
      omega
  · intro h
    simp [call_carto, h]

/-- Witness for C6: a concrete failing call and a concrete succeeding call. -/
theorem C6_witness :
    call_carto (fun _ => ⟨404, strL "boom", none⟩) [] =
      .error (cartoErrMsg 404 (strL "boom")) ∧
    call_carto (fun _ => ⟨200, [], some []⟩) [] = .ok (some []) :=
  ⟨((C6_call_carto (fun _ => ⟨404, strL "boom", none⟩) []).1 (by decide)).1,
   (C6_call_carto (fun _ => ⟨200, [], some []⟩) []).2 (by decide)⟩

/-! ## Claim C8: empty-input soft failure -/

/-- Claim C8: normalization is total and returns the empty pattern for every
empty or whitespace-only address, including text whose portion before the
first comma is empty; the parcel resolver treats the empty pattern as "no
match" and issues no remote query. -/
theorem C8_empty_input (addr : S)
    (h : (∀ c ∈ addr, isPySpace c = true) ∨ preComma addr = []) :
    normalize_address_for_search addr = [] ∧
    ∀ net, find_parcel_for_address net addr = (.ok none, []) := by
  have hpc : preComma addr = [] := by
    rcases h with h | h
    · have : lstrip addr = [] := by
        simp only [lstrip]
        exact List.dropWhile_eq_nil_iff.mpr h
      simp [preComma, pyStrip, this, rstrip]
    · exact h
  have hn : normalize_address_for_search addr = [] := by
    unfold normalize_address_for_search
    split
    · rfl
    · simp [hpc]
  refine ⟨hn, fun net => ?_⟩
  simp [find_parcel_for_address, hn]

/-- Witness for C8: a whitespace-only address and an address whose portion
before the first comma is empty. -/
theorem C8_witness :
    (normalize_address_for_search (strL "  ") = [] ∧
      find_parcel_for_address (fun _ => ⟨200, [], some []⟩) (strL "  ") =
        (.ok none, [])) ∧
    normalize_address_for_search (strL " , Philadelphia PA") = [] :=
  ⟨⟨(C8_empty_input (strL "  ") (Or.inl (by decide))).1,
    (C8_empty_input (strL "  ") (Or.inl (by decide))).2 _⟩,
   (C8_empty_input (strL " , Philadelphia PA") (Or.inr (by decide))).1⟩

/-! ## Claim C9: grand total -/

/-- Claim C9: when the table has a numeric `market_value` column, the grand
total is the sum of its non-null values with nulls excluded (e.g.
[100000, 250000, null] totals 350000); when the column is absent or not
numeric, no total is produced (the page states it cannot be calculated). -/
theorem C9_grand_total :
    (∀ df t, grand_total df = some t ↔
      (strL "market_value" ∈ df.cols ∧ isNumericCol (marketCol df) = true ∧
        t = sumNonNull (marketCol df))) ∧
    (∀ vals, sumNonNull (vals ++ [.null]) = sumNonNull vals) ∧
    (∀ df, strL "market_value" ∉ df.cols → grand_total df = none) ∧
    (∀ df, isNumericCol (marketCol df) = false → grand_total df = none) ∧
    grand_total ⟨[strL "market_value"],
      [[(strL "market_value", .num 100000)],
       [(strL "market_value", .num 250000)],
       [(strL "market_value", .null)]]⟩ = some 350000 ∧
    grand_total ⟨[strL "market_value"],
      [[(strL "market_value", .str (strL "N/A"))]]⟩ = none := by
  refine ⟨?_, ?_, ?_, ?_, by decide, by decide⟩
  · intro df t
    constructor
    · intro h
      by_cases hm : strL "market_value" ∈ df.cols
      · by_cases hn : isNumericCol (marketCol df)
        · refine ⟨hm, hn, ?_⟩
          simp [grand_total, hm, hn] at h
          omega
        · simp [grand_total, hm, hn] at h
      · simp [grand_total, hm] at h
    · rintro ⟨hm, hn, rfl⟩
      simp [grand_total, hm, hn]
  · intro vals
    simp [sumNonNull, List.filterMap_append]
  · intro df hm
    simp [grand_total, hm]
  · intro df hn
    simp [grand_total, hn]

/-- Witness for C9: a table without the column, and a numeric column summed
with its null excluded. -/
theorem C9_witness :
    grand_total ⟨[], []⟩ = none ∧
    grand_total ⟨[strL "market_value"],
      [[(strL "market_value", .num 1)], [(strL "market_value", .null)]]⟩ =
      some 1 :=
  ⟨C9_grand_total.2.2.1 ⟨[], []⟩ (by decide),
   (C9_grand_total.1 _ 1).2 ⟨by decide, by decide, by decide⟩⟩

/-! ## Claim C2: three-policy row emission -/

/-- Claim C2: the per-address lookup returns (1) exactly one placeholder row
with a "no parcel found" note when the resolver finds no parcel (by Python
dict falsiness that covers both the absent row and an empty row dict),
(2) exactly one placeholder row carrying the resolved parcel fields plus a
note when a parcel is found but zero assessment rows exist, and (3) exactly
N rows, each the parcel fields merged over one assessment record, when N
assessment rows exist. -/
theorem C2_three_policies (net : Net) (address : S) (years : List Int) :
    (∀ prowOpt, (find_parcel_for_address net address).1 = .ok prowOpt →
      (prowOpt = none ∨ prowOpt = some []) →
      (lookup_single_address net address years).1 =
        [[(strL "input_address", .str address),
          (strL "note", .str (strL "No parcel found for this address"))]]) ∧
    (∀ prow, prow ≠ [] →
      (find_parcel_for_address net address).1 = .ok (some prow) →
      (get_assessments_for_parcel net
        ((dictGet prow (strL "parcel_number")).getD .null) years).1 = .ok [] →
      (lookup_single_address net address years).1 =
        [[(strL "input_address", .str address),
          (strL "parcel_number", (dictGet prow (strL "parcel_number")).getD .null),
          (strL "full_address", (dictGet prow (strL "full_address")).getD .null),
          (strL "zip_code", (dictGet prow (strL "zip_code")).getD .null),
          (strL "note",
           .str (strL "Parcel found, but no assessment records for selected years"))]]) ∧
    (∀ prow arows, prow ≠ [] →
      (find_parcel_for_address net address).1 = .ok (some prow) →
      (get_assessments_for_parcel net
        ((dictGet prow (strL "parcel_number")).getD .null) years).1 = .ok arows →
      arows ≠ [] →
      (lookup_single_address net address years).1 =
        arows.map (fun a =>
          dictSet (dictSet (dictSet (dictSet a
            (strL "input_address") (.str address))
            (strL "parcel_number") ((dictGet prow (strL "parcel_number")).getD .null))
            (strL "full_address") ((dictGet prow (strL "full_address")).getD .null))
            (strL "zip_code") ((dictGet prow (strL "zip_code")).getD .null)) ∧
      (lookup_single_address net address years).1.length = arows.length) := by
  refine ⟨?_,
    fun prow hprow hfp hga =>
      lookup_of_no_assessments net address years prow hprow hfp hga,
    fun prow arows hprow hfp hga hne => ?_⟩
  · rintro prowOpt hfp (rfl | rfl)
    · exact lookup_of_fp_none net address years hfp
    · exact lookup_of_fp_empty net address years hfp
  · have h := lookup_of_merge net address years prow arows hprow hfp hga hne
    exact ⟨h, by rw [h, List.length_map]⟩

/-- Witness for C2: the three policies on concrete services — no matching
row, a single empty row dict (also "no parcel found"), a parcel with no
assessments, and a parcel with two assessment rows. -/
theorem C2_witness :
    (lookup_single_address netNoParcel (strL "780 Union Street") [2025]).1 =
      [[(strL "input_address", .str (strL "780 Union Street")),
        (strL "note", .str (strL "No parcel found for this address"))]] ∧
    (lookup_single_address netEmptyDict (strL "780 Union Street") [2025]).1 =
      [[(strL "input_address", .str (strL "780 Union Street")),
        (strL "note", .str (strL "No parcel found for this address"))]] ∧
    (lookup_single_address netEmptyAssess (strL "780 Union Street") [2025]).1 =
      [[(strL "input_address", .str (strL "780 Union Street")),
        (strL "parcel_number", (dictGet prow780 (strL "parcel_number")).getD .null),
        (strL "full_address", (dictGet prow780 (strL "full_address")).getD .null),
        (strL "zip_code", (dictGet prow780 (strL "zip_code")).getD .null),
        (strL "note",
         .str (strL "Parcel found, but no assessment records for selected years"))]] ∧
    (lookup_single_address netFull (strL "780 Union Street") [2025, 2026]).1.length =
      arowsConflict.length :=
  ⟨(C2_three_policies netNoParcel (strL "780 Union Street") [2025]).1 none
     (by decide) (Or.inl rfl),
   (C2_three_policies netEmptyDict (strL "780 Union Street") [2025]).1 (some [])
     (by decide) (Or.inr rfl),
   (C2_three_policies netEmptyAssess (strL "780 Union Street") [2025]).2.1 prow780
     (by decide) (by decide) (by decide),
   ((C2_three_policies netFull (strL "780 Union Street") [2025, 2026]).2.2 prow780
     arowsConflict (by decide) (by decide) (by decide) (by decide)).2⟩

/-! ## Claim C10: identifying-field override invariant -/

/-- Claim C10: every merged assessment row carries the input address and the
resolver's parcel record values in `input_address`, `parcel_number`,
`full_address` and `zip_code`, overriding any same-named fields of the
fetched assessment record. -/
theorem C10_identifying_override (net : Net) (address : S) (years : List Int)
    (prow : Row) (arows : List Row)
    (hfp : (find_parcel_for_address net address).1 = .ok (some prow))
    (hga : (get_assessments_for_parcel net
      ((dictGet prow (strL "parcel_number")).getD .null) years).1 = .ok arows)
    (hne : arows ≠ []) :
    ∀ r ∈ (lookup_single_address net address years).1,
      dictGet r (strL "input_address") = some (.str address) ∧
      dictGet r (strL "parcel_number") =
        some ((dictGet prow (strL "parcel_number")).getD .null) ∧
      dictGet r (strL "full_address") =
        some ((dictGet prow (strL "full_address")).getD .null) ∧
      dictGet r (strL "zip_code") =
        some ((dictGet prow (strL "zip_code")).getD .null) := by
  have hprow : prow ≠ [] := by
    rintro rfl
    have hz : (get_assessments_for_parcel net
        ((dictGet ([] : Row) (strL "parcel_number")).getD .null) years).1 =
        .ok ([] : List Row) := rfl
    rw [hz] at hga
    injection hga with h'
    exact hne h'.symm
  intro r hr
  rw [lookup_of_merge net address years prow arows hprow hfp hga hne] at hr
  obtain ⟨a, _, rfl⟩ := List.mem_map.mp hr
  refine ⟨?_, ?_, ?_, ?_⟩
  · rw [dictGet_dictSet_ne _ _ _ _ (by decide), dictGet_dictSet_ne _ _ _ _ (by decide),
      dictGet_dictSet_ne _ _ _ _ (by decide), dictGet_dictSet_self]
  · rw [dictGet_dictSet_ne _ _ _ _ (by decide), dictGet_dictSet_ne _ _ _ _ (by decide),
      dictGet_dictSet_self]
  · rw [dictGet_dictSet_ne _ _ _ _ (by decide), dictGet_dictSet_self]
  · rw [dictGet_dictSet_self]

/-- Witness for C10: on the concrete service, the first merged row's
`parcel_number` is the resolver's value, even though the fetched assessment
row carried a conflicting `parcel_number` field. -/
theorem C10_witness :
    dictGet ((lookup_single_address netFull (strL "780 Union Street")
        [2025, 2026]).1.headI) (strL "parcel_number") =
      some (.str (strL "780123")) ∧
    dictGet (arowsConflict.headI) (strL "parcel_number") =
      some (.str (strL "SHOULD BE OVERRIDDEN")) := by
  have h := C10_identifying_override netFull (strL "780 Union Street") [2025, 2026]
    prow780 arowsConflict (by decide) (by decide) (by decide)
  have h1 := h ((lookup_single_address netFull (strL "780 Union Street")
    [2025, 2026]).1.headI) (by decide)
  have hv : ((dictGet prow780 (strL "parcel_number")).getD .null) =
      .str (strL "780123") := by decide
  rw [hv] at h1
  exact ⟨h1.2.1, by decide⟩

/-! ## Claim C4: empty-input short-circuits -/

/-- Claim C4 as stated is false: with a non-empty address list and an EMPTY
year set, the core neither returns an error result nor refrains from
querying — it issues the parcel query (recorded in the query log) and
reports no batch error.  The empty-year check lives only in the UI layer. -/
theorem C4_counterexample :
    (build_results netNoParcel [strL "780 Union Street"] ([] : List Int)).2.2 =
      [parcel_sql pat780] ∧
    (build_results netNoParcel [strL "780 Union Street"] ([] : List Int)).2.1 =
      [] := by
  exact ⟨by decide, by decide⟩

/-- Claim C4 (amended): the core rejects an empty or all-blank ADDRESS set by
returning the single error "No addresses provided" before issuing any query;
the year set is not validated by the core (the UI refuses an empty year set
before the core runs), and a run with a non-empty address list and an empty
year set still issues remote queries. -/
theorem C4_empty_inputs (net : Net) (years : List Int) (addresses : List S)
    (h : ∀ a ∈ addresses, pyStrip a = []) :
    build_results net addresses years =
      (⟨[], []⟩, [strL "No addresses provided"], []) ∧
    (build_results netNoParcel [strL "780 Union Street"] ([] : List Int)).2.2 ≠
      [] := by
  constructor
  · have hu := uniqueAddresses_blank addresses h
    simp [build_results, hu]
  · decide

/-- Witness for C4: the empty address list and a blank-only address list. -/
theorem C4_witness :
    build_results netNoParcel ([] : List S) ([2025] : List Int) =
      (⟨[], []⟩, [strL "No addresses provided"], []) ∧
    build_results netNoParcel [strL "   "] ([2025] : List Int) =
      (⟨[], []⟩, [strL "No addresses provided"], []) :=
  ⟨(C4_empty_inputs netNoParcel [2025] [] (by simp)).1,
   (C4_empty_inputs netNoParcel [2025] [strL "   "] (by decide)).1⟩

/-! ## Claim C7: batch deduplication -/

/-- Claim C7: the batch deduplicates input addresses by trimmed value while
preserving first-occurrence order (the processed list is duplicate-free, a
sublist of the trimmed inputs, and holds exactly the non-blank trimmed
values); a duplicated address issues exactly one resolution/fetch sequence
and produces one row set (a run on any list equals the run on its
deduplication, and a run on [a, a] equals the run on [a]); an all-blank or
empty input yields an empty result with exactly one batch-level error. -/
theorem C7_dedup (net : Net) (years : List Int) :
    (∀ addresses, build_results net addresses years =
      build_results net (uniqueAddresses addresses) years) ∧
    (∀ a, build_results net [a, a] years = build_results net [a] years) ∧
    (∀ addresses, (uniqueAddresses addresses).Nodup ∧
      List.Sublist (uniqueAddresses addresses) (addresses.map pyStrip) ∧
      (∀ s, s ∈ uniqueAddresses addresses ↔
        (s ≠ [] ∧ s ∈ addresses.map pyStrip))) ∧
    (∀ addresses, (∀ a ∈ addresses, pyStrip a = []) →
      build_results net addresses years =
        (⟨[], []⟩, [strL "No addresses provided"], [])) := by
  have h1 : ∀ addresses, build_results net addresses years =
      build_results net (uniqueAddresses addresses) years := by
    intro addresses
    conv_rhs => rw [build_results, uniqueAddresses_idem]
    rw [build_results]
  refine ⟨h1, fun a => ?_, fun addresses => ⟨?_, ?_, mem_uniqueAddresses addresses⟩,
    fun addresses h => ?_⟩
  · have huni : uniqueAddresses [a, a] = uniqueAddresses [a] := by
      simp [uniqueAddresses, dedupKeepFirst, dedupSeen]
    rw [h1 [a, a], h1 [a], huni]
  · exact (nodup_dedupSeen (addresses.map pyStrip) []).filter _
  · exact (List.filter_sublist _).trans (dedupSeen_sublist (addresses.map pyStrip) [])
  · have hu := uniqueAddresses_blank addresses h
    simp [build_results, hu]

/-- Witness for C7: a concrete duplicated batch collapses to one lookup, and
a blank-only batch yields the single batch-level error. -/
theorem C7_witness :
    build_results netFull [strL "780 Union Street", strL "780 Union Street"]
        [2025] =
      build_results netFull [strL "780 Union Street"] [2025] ∧
    build_results netFull [strL " ", strL ""] [2025] =
      (⟨[], []⟩, [strL "No addresses provided"], []) :=
  ⟨(C7_dedup netFull [2025]).2.1 (strL "780 Union Street"),
   (C7_dedup netFull [2025]).2.2.2 [strL " ", strL ""] (by decide)⟩

/-! ## Claim C3: canonical column ordering -/

theorem restCols_frontCols (fs : List S) :
    restCols fs (frontCols fs) =
      fs.filter (fun c => decide (c ∉ preferred_order)) := by
  unfold restCols
  refine List.filter_congr ?_
  intro c hc
  by_cases hp : c ∈ preferred_order
  · have hf : c ∈ frontCols fs := by
      unfold frontCols
      exact List.mem_filter.mpr ⟨hp, by simpa using hc⟩
    simp [hf, hp]
  · have hf : c ∉ frontCols fs := fun hmem => hp (List.mem_filter.mp hmem).1
    simp [hf, hp]

/-- Claim C3 as stated is false: the diagnostic note column is NOT last — it
sits inside the preferred front block, directly after the year column, and
any non-preferred column (here `market_value`) comes after it. -/
theorem C3_counterexample :
    (strL "note") ∈
      (build_results netC3 [strL "1 Nowhere St", strL "780 Union Street"]
        [2025]).1.cols ∧
    (build_results netC3 [strL "1 Nowhere St", strL "780 Union Street"]
        [2025]).1.cols.getLast? ≠ some (strL "note") ∧
    (build_results netC3 [strL "1 Nowhere St", strL "780 Union Street"]
        [2025]).1.cols =
      [strL "input_address", strL "parcel_number", strL "full_address",
       strL "zip_code", strL "year", strL "note", strL "market_value"] :=
  ⟨by decide, by decide, by decide⟩

/-- Claim C3 (amended): for every non-empty batch result, the columns are the
identifying columns (input address, parcel id, resolved address, postal code,
year) AND the diagnostic note column, in this fixed preferred order and
restricted to the columns actually present, followed by all remaining columns
in first-seen order; absent columns are omitted, not padded. -/
theorem C3_column_order (net : Net) (addresses : List S) (years : List Int)
    (h : (build_results net addresses years).1.rows ≠ []) :
    (build_results net addresses years).1.cols =
      specColOrder ((build_results net addresses years).1.rows) := by
  simp only [build_results] at h ⊢
  by_cases hu : (uniqueAddresses addresses).isEmpty = true
  · rw [if_pos hu] at h ⊢
    exact absurd rfl h
  · rw [if_neg hu] at h ⊢
    by_cases hr : (((uniqueAddresses addresses).map
        (fun addr => lookup_single_address net addr years)).map Prod.fst).flatten.isEmpty = true
    · rw [if_pos hr] at h ⊢
      exact absurd rfl h
    · rw [if_neg hr] at h ⊢
      simp only [specColOrder]
      rw [restCols_frontCols]

/-- Witness for C3: on the concrete two-address batch the column list equals
the amended canonical order. -/
theorem C3_witness :
    (build_results netC3 [strL "1 Nowhere St", strL "780 Union Street"]
        [2025]).1.cols =
      specColOrder ((build_results netC3
        [strL "1 Nowhere St", strL "780 Union Street"] [2025]).1.rows) :=
  C3_column_order netC3 [strL "1 Nowhere St", strL "780 Union Street"] [2025]
    (by decide)

/-! ## Claim C1: per-address failure isolation -/

/-- Claim C1 as stated is false in one part: a failure inside one address's
resolve/fetch sequence is caught INSIDE the per-address lookup and surfaces
only as the placeholder row's note — the batch error list stays empty, no
"<address>: <message>" string is recorded.  Here B's assessment fetch fails
with HTTP 500, all three addresses still get a row (B's is the placeholder
carrying the error note), yet the error list is `[]`, not a one-element
list. -/
theorem C1_counterexample :
    (build_results netABC [strL "1 A St", strL "2 B St", strL "3 C St"]
        [2025]).2.1 = [] ∧
    ((build_results netABC [strL "1 A St", strL "2 B St", strL "3 C St"]
        [2025]).1.rows.map (fun r => dictGet r (strL "input_address"))) =
      [some (.str (strL "1 A St")), some (.str (strL "2 B St")),
       some (.str (strL "3 C St"))] ∧
    ((build_results netABC [strL "1 A St", strL "2 B St", strL "3 C St"]
        [2025]).1.rows.map (fun r => dictGet r (strL "note")))[1]? =
      some (some (.str
        (strL "Error looking up assessments: Carto API error 500: boom"))) :=
  ⟨by decide, by decide, by decide⟩

/-- Claim C1 (amended): every failure of a remote call is caught at the
per-address boundary inside the lookup, which always emits at least one row
carrying the input address; the batch is the concatenation of the per-address
row lists, so a failure for one address never prevents rows for the others;
the batch error list receives NO per-address entry (it is empty whenever the
deduplicated address list is non-empty), and every deduplicated address
contributes at least one row carrying it in `input_address`. -/
theorem C1_failure_isolation (net : Net) (addresses : List S) (years : List Int)
    (h : uniqueAddresses addresses ≠ []) :
    (build_results net addresses years).2.1 = [] ∧
    (build_results net addresses years).1.rows =
      ((uniqueAddresses addresses).map
        (fun a => (lookup_single_address net a years).1)).flatten ∧
    (∀ a ∈ uniqueAddresses addresses,
      (lookup_single_address net a years).1 ≠ [] ∧
      ∀ r ∈ (lookup_single_address net a years).1,
        dictGet r (strL "input_address") = some (.str a)) ∧
    (∀ a ∈ uniqueAddresses addresses,
      ∃ r ∈ (build_results net addresses years).1.rows,
        dictGet r (strL "input_address") = some (.str a)) := by
  have hne : (uniqueAddresses addresses).isEmpty = false := by
    cases hu : uniqueAddresses addresses with
    | nil => exact absurd hu h
    | cons x xs => rfl
  have hrows_ne : ¬ ((((uniqueAddresses addresses).map
      (fun addr => lookup_single_address net addr years)).map
        Prod.fst).flatten.isEmpty = true) := by
    cases hu : uniqueAddresses addresses with
    | nil => exact absurd hu h
    | cons x xs =>
      simp only [List.map_cons, List.flatten_cons, List.isEmpty_eq_true,
        List.append_eq_nil]
      rintro ⟨h1, -⟩
      exact lookup_ne_nil net x years h1
  have herr : (build_results net addresses years).2.1 = [] := by
    simp only [build_results]
    rw [if_neg (by simp [hne]), if_neg hrows_ne]
  have hrows : (build_results net addresses years).1.rows =
      ((uniqueAddresses addresses).map
        (fun a => (lookup_single_address net a years).1)).flatten := by
    simp only [build_results]
    rw [if_neg (by simp [hne]), if_neg hrows_ne]
    simp only [List.map_map]
    rfl
  refine ⟨herr, hrows,
    fun a _ => ⟨lookup_ne_nil net a years, lookup_row_input_address net a years⟩,
    fun a ha => ?_⟩
  obtain ⟨r, hr⟩ := List.exists_mem_of_ne_nil _ (lookup_ne_nil net a years)
  refine ⟨r, ?_, lookup_row_input_address net a years r hr⟩
  rw [hrows]
  exact List.mem_flatten.mpr ⟨_, List.mem_map.mpr ⟨a, ha, rfl⟩, hr⟩

/-- Witness for C1: a concrete one-address batch with rows and an empty
error list. -/
theorem C1_witness :
    (build_results netFull [strL "780 Union Street"] [2025, 2026]).2.1 = [] ∧
    (build_results netFull [strL "780 Union Street"] [2025, 2026]).1.rows =
      ([strL "780 Union Street"].map
        (fun a => (lookup_single_address netFull a [2025, 2026]).1)).flatten := by
  have h := C1_failure_isolation netFull [strL "780 Union Street"] [2025, 2026]
    (by decide)
  have hu : uniqueAddresses [strL "780 Union Street"] =
      [strL "780 Union Street"] := by decide
  refine ⟨h.1, ?_⟩
  rw [h.2.1, hu]

/-! ## Claim C5: helper lemmas about the normalizer -/

theorem pyUpper_cases (c : Char) :
    pyUpper c = c ∨ ∃ p ∈ lowerUpper, c = p.1 ∧ pyUpper c = p.2 := by
  unfold pyUpper
  cases h : lowerUpper.find? (fun p => p.1 == c) with
  | none => simp
  | some p =>
    right
    have hm := List.mem_of_find?_eq_some h
    have hc : p.1 = c := by simpa using List.find?_some h
    exact ⟨p, hm, hc.symm, by simp [h]⟩

theorem fixedChar_pyUpper (c : Char) (h1 : c ≠ ',') (h2 : c ≠ qc) :
    fixedChar (pyUpper c) := by
  rcases pyUpper_cases c with h | ⟨p, hp, rfl, hup⟩
  · rw [h]
    exact ⟨h, h1, h2⟩
  · rw [hup]
    fin_cases hp <;> decide

theorem isPySpace_pyUpper (c : Char) : isPySpace (pyUpper c) = isPySpace c := by
  rcases pyUpper_cases c with h | ⟨p, hp, rfl, hup⟩
  · rw [h]
  · rw [hup]
    fin_cases hp <;> decide

theorem splitOnPred_ne_nil (p : Char → Bool) (s : S) : splitOnPred p s ≠ [] := by
  induction s with
  | nil => simp [splitOnPred]
  | cons c rest ih =>
    simp only [splitOnPred]
    by_cases h : p c = true
    · simp [h]
    · simp only [h, if_false]
      cases hr : splitOnPred p rest with
      | nil => simp
      | cons w ws => simp

theorem mem_splitOnPred (p : Char → Bool) :
    ∀ (s w : S), w ∈ splitOnPred p s → ∀ c ∈ w, p c = false ∧ c ∈ s := by
  intro s
  induction s with
  | nil =>
    intro w hw c hc
    simp only [splitOnPred, List.mem_singleton] at hw
    subst hw
    simp at hc
  | cons a rest ih =>
    intro w hw c hc
    simp only [splitOnPred] at hw
    by_cases h : p a = true
    · rw [if_pos h] at hw
      rcases List.mem_cons.mp hw with rfl | hw
      · simp at hc
      · obtain ⟨h1, h2⟩ := ih w hw c hc
        exact ⟨h1, List.mem_cons_of_mem a h2⟩
    · rw [if_neg h] at hw
      cases hr : splitOnPred p rest with
      | nil => exact absurd hr (splitOnPred_ne_nil p rest)
      | cons w0 ws =>
        rw [hr] at hw
        rcases List.mem_cons.mp hw with rfl | hw
        · rcases List.mem_cons.mp hc with rfl | hc
          · exact ⟨by simpa using h, List.mem_cons_self c rest⟩
          · obtain ⟨h1, h2⟩ := ih w0 (by rw [hr]; exact List.mem_cons_self w0 ws) c hc
            exact ⟨h1, List.mem_cons_of_mem a h2⟩
        · obtain ⟨h1, h2⟩ := ih w (by rw [hr]; exact List.mem_cons_of_mem w0 hw) c hc
          exact ⟨h1, List.mem_cons_of_mem a h2⟩

theorem splitOnPred_all_false (p : Char → Bool) :
    ∀ (s : S), (∀ c ∈ s, p c = false) → splitOnPred p s = [s] := by
  intro s
  induction s with
  | nil => intro _; rfl
  | cons a rest ih =>
    intro h
    have ha : p a = false := h a (List.mem_cons_self a rest)
    have hr : splitOnPred p rest = [rest] :=
      ih (fun c hc => h c (List.mem_cons_of_mem a hc))
    simp [splitOnPred, ha, hr]

theorem splitOnPred_append (p : Char → Bool) :
    ∀ (w l r : S) (rs : List S), (∀ c ∈ w, p c = false) →
      splitOnPred p l = r :: rs → splitOnPred p (w ++ l) = (w ++ r) :: rs := by
  intro w
  induction w with
  | nil =>
    intro l r rs _ h
    simpa using h
  | cons a w ih =>
    intro l r rs hw h
    have ha : p a = false := hw a (List.mem_cons_self a w)
    have htail := ih l r rs (fun c hc => hw c (List.mem_cons_of_mem a hc)) h
    simp [splitOnPred, htail, ha]

theorem splitOnPred_sep (p : Char → Bool) (c : Char) (l : S) (h : p c = true) :
    splitOnPred p (c :: l) = [] :: splitOnPred p l := by
  simp [splitOnPred, h]

theorem joinWith_cons_cons (sep w x : S) (xs : List S) :
    joinWith sep (w :: x :: xs) = w ++ sep ++ joinWith sep (x :: xs) := rfl

theorem joinWith_append_singleton (sep : S) :
    ∀ (ws : List S) (wn : S), ws ≠ [] →
      joinWith sep (ws ++ [wn]) = joinWith sep ws ++ sep ++ wn := by
  intro ws
  induction ws with
  | nil => intro wn h; exact absurd rfl h
  | cons x t ih =>
    intro wn _
    cases t with
    | nil => simp [joinWith]
    | cons y u =>
      have ih' := ih wn (by simp)
      rw [List.cons_append] at ih'
      simp only [List.cons_append, joinWith_cons_cons]
      rw [ih']
      simp [List.append_assoc]

theorem mem_joinWith (sep : S) :
    ∀ (ws : List S) (c : Char), c ∈ joinWith sep ws → c ∈ sep ∨ ∃ w ∈ ws, c ∈ w := by
  intro ws
  induction ws with
  | nil => intro c hc; simp [joinWith] at hc
  | cons w t ih =>
    intro c hc
    cases t with
    | nil =>
      right
      exact ⟨w, List.mem_cons_self w [], by simpa [joinWith] using hc⟩
    | cons x xs =>
      rw [joinWith_cons_cons] at hc
      rcases List.mem_append.mp hc with hc | hc
      · rcases List.mem_append.mp hc with hc | hc
        · right; exact ⟨w, List.mem_cons_self _ _, hc⟩
        · left; exact hc
      · rcases ih c hc with h | ⟨v, hv, hcv⟩
        · left; exact h
        · right; exact ⟨v, List.mem_cons_of_mem w hv, hcv⟩

theorem joinWith_ne_nil (ws : List S) (h : ws ≠ []) (hw : ∀ w ∈ ws, w ≠ []) :
    joinWith [' '] ws ≠ [] := by
  cases ws with
  | nil => exact absurd rfl h
  | cons w t =>
    cases t with
    | nil => simpa [joinWith] using hw w (List.mem_cons_self w [])
    | cons x xs =>
      rw [joinWith_cons_cons]
      simp

theorem pyWords_joinWith :
    ∀ (ws : List S), (∀ w ∈ ws, w ≠ [] ∧ ∀ c ∈ w, isPySpace c = false) →
      pyWords (joinWith [' '] ws) = ws := by
  intro ws
  induction ws with
  | nil => intro _; rfl
  | cons w ws ih =>
    intro h
    have hw := h w (List.mem_cons_self w ws)
    have hwe : w.isEmpty = false := by
      cases hww : w with
      | nil => exact absurd hww hw.1
      | cons _ _ => rfl
    cases ws with
    | nil =>
      unfold pyWords
      rw [show joinWith [' '] [w] = w from rfl]
      rw [splitOnPred_all_false isPySpace w hw.2]
      simp [hwe]
    | cons x xs =>
      have hx : joinWith [' '] (w :: x :: xs) =
          w ++ (' ' :: joinWith [' '] (x :: xs)) := by
        rw [joinWith_cons_cons]
        simp
      obtain ⟨r, rs, hr⟩ : ∃ r rs,
          splitOnPred isPySpace (joinWith [' '] (x :: xs)) = r :: rs := by
        cases hsp : splitOnPred isPySpace (joinWith [' '] (x :: xs)) with
        | nil => exact absurd hsp (splitOnPred_ne_nil _ _)
        | cons r rs => exact ⟨r, rs, rfl⟩
      have hsep : splitOnPred isPySpace (' ' :: joinWith [' '] (x :: xs)) =
          [] :: r :: rs := by
        rw [splitOnPred_sep isPySpace ' ' _ (by decide), hr]
      have htail : (r :: rs).filter (fun v => !v.isEmpty) =
          pyWords (joinWith [' '] (x :: xs)) := by
        unfold pyWords
        rw [hr]
      unfold pyWords
      rw [hx, splitOnPred_append isPySpace w _ [] (r :: rs) hw.2 hsep]
      rw [List.append_nil, List.filter_cons]
      rw [htail, ih (fun v hv => h v (List.mem_cons_of_mem w hv))]
      simp [hwe]

theorem takeWhile_append_left (p : Char → Bool) :
    ∀ (a b : S), (∀ c ∈ a, p c = true) →
      List.takeWhile p (a ++ b) = a ++ List.takeWhile p b := by
  intro a
  induction a with
  | nil => intro b _; rfl
  | cons x t ih =>
    intro b h
    have hx : p x = true := h x (List.mem_cons_self x t)
    simp [List.takeWhile_cons, hx,
      ih b (fun c hc => h c (List.mem_cons_of_mem x hc))]

theorem trailingRun_append_sep (t lw : S) (h : ∀ c ∈ lw, isPySpace c = false) :
    trailingRun (t ++ ' ' :: lw) = lw.reverse := by
  unfold trailingRun
  rw [List.reverse_append, List.reverse_cons, List.append_assoc]
  rw [takeWhile_append_left _ _ _
    (fun c hc => by simp [h c (List.mem_reverse.mp hc)])]
  have hsp : isPySpace ' ' = true := rfl
  simp [List.takeWhile_cons, hsp]

theorem trailingRun_join (ws : List S) (wn : S)
    (hwn : wn ≠ [] ∧ ∀ c ∈ wn, isPySpace c = false) :
    trailingRun (joinWith [' '] (ws ++ [wn])) = wn.reverse := by
  cases ws with
  | nil =>
    unfold trailingRun
    rw [show joinWith [' '] ([] ++ [wn]) = wn from rfl]
    exact List.takeWhile_eq_self_iff.mpr
      (fun c hc => by simp [hwn.2 c (List.mem_reverse.mp hc)])
  | cons x t =>
    rw [joinWith_append_singleton _ _ _ (by simp), List.append_assoc]
    exact trailingRun_append_sep _ _ hwn.2

theorem suffix_word_decomp (ws : List S) (lw : S)
    (hws : ∀ w ∈ ws, w ≠ [] ∧ ∀ c ∈ w, isPySpace c = false)
    (hlw : lw ≠ [] ∧ ∀ c ∈ lw, isPySpace c = false)
    (hsuf : (' ' :: lw) <:+ joinWith [' '] ws) (hne : ws ≠ []) :
    ∃ init, ws = init ++ [lw] ∧ init ≠ [] := by
  rcases List.eq_nil_or_concat ws with rfl | ⟨init, wn, hcat⟩
  · exact absurd rfl hne
  · rw [List.concat_eq_append] at hcat
    subst hcat
    obtain ⟨t, ht⟩ := hsuf
    have h1 : trailingRun (joinWith [' '] (init ++ [wn])) = wn.reverse :=
      trailingRun_join init wn (hws wn (by simp))
    have h2 : trailingRun (joinWith [' '] (init ++ [wn])) = lw.reverse := by
      rw [← ht]
      exact trailingRun_append_sep t lw hlw.2
    have hwl : wn = lw := List.reverse_inj.mp (h1.symm.trans h2)
    subst hwl
    refine ⟨init, rfl, ?_⟩
    rintro rfl
    rw [show joinWith [' '] ([] ++ [wn]) = wn from rfl] at ht
    have := congrArg List.length ht
    simp [List.length_append] at this
    omega

theorem applySuffix_no_match (a : S) :
    ∀ (m : List (S × S)), (∀ pr ∈ m, ¬ (pr.1 <:+ a)) → applySuffix a m = a := by
  intro m
  induction m with
  | nil => intro _; rfl
  | cons pr rest ih =>
    intro h
    have hs : pr.1.isSuffixOf a = false :=
      Bool.eq_false_iff.mpr
        (fun hb => h pr (List.mem_cons_self pr rest)
          (List.isSuffixOf_iff_suffix.mp hb))
    simp only [applySuffix, hs, Bool.false_eq_true, if_false]
    exact ih (fun q hq => h q (List.mem_cons_of_mem pr hq))

theorem applySuffix_analysis (a : S) :
    ∀ (m : List (S × S)),
      ((∀ pr ∈ m, ¬ (pr.1 <:+ a)) ∧ applySuffix a m = a) ∨
      (∃ pr ∈ m, pr.1 <:+ a ∧
        applySuffix a m = a.take (a.length - pr.1.length) ++ pr.2) := by
  intro m
  induction m with
  | nil => left; exact ⟨by simp, rfl⟩
  | cons pr rest ih =>
    by_cases h : pr.1.isSuffixOf a = true
    · right
      exact ⟨pr, List.mem_cons_self _ _, List.isSuffixOf_iff_suffix.mp h,
        by simp [applySuffix, h]⟩
    · have hb : pr.1.isSuffixOf a = false := Bool.eq_false_iff.mpr h
      have hns : ¬ (pr.1 <:+ a) :=
        fun hs => h (List.isSuffixOf_iff_suffix.mpr hs)
      rcases ih with ⟨hall, heq⟩ | ⟨q, hq, hqs, heq⟩
      · left
        refine ⟨?_, by simp [applySuffix, hb, heq]⟩
        intro q hq
        rcases List.mem_cons.mp hq with rfl | hq
        · exact hns
        · exact hall q hq
      · right
        exact ⟨q, List.mem_cons_of_mem pr hq, hqs,
          by simp [applySuffix, hb, heq]⟩

theorem pyIsDigit_pyIntStr (w : S) (h : pyIsDigit w = true) :
    pyIsDigit (pyIntStr w) = true := by
  by_cases ht : (w.dropWhile (fun c => c == '0')).isEmpty = true
  · have h1 : pyIntStr w = ['0'] := by
      unfold pyIntStr
      rw [if_pos ht]
    rw [h1]
    decide
  · have h1 : pyIntStr w = w.dropWhile (fun c => c == '0') := by
      unfold pyIntStr
      rw [if_neg ht]
    rw [h1]
    have hsub : w.dropWhile (fun c => c == '0') <:+ w :=
      List.dropWhile_suffix _
    simp only [pyIsDigit, Bool.and_eq_true, List.all_eq_true] at h ⊢
    exact ⟨by simpa using ht, fun c hc => h.2 c (hsub.sublist.subset hc)⟩

theorem pyIntStr_idem (w : S) : pyIntStr (pyIntStr w) = pyIntStr w := by
  by_cases ht : (w.dropWhile (fun c => c == '0')).isEmpty = true
  · have h1 : pyIntStr w = ['0'] := by
      unfold pyIntStr
      rw [if_pos ht]
    rw [h1]
    decide
  · have h1 : pyIntStr w = w.dropWhile (fun c => c == '0') := by
      unfold pyIntStr
      rw [if_neg ht]
    rw [h1]
    cases hd : w.dropWhile (fun c => c == '0') with
    | nil => rw [hd] at ht; exact absurd rfl ht
    | cons c t =>
      have hc : (c == '0') = false := dropWhile_head_false _ w c t hd
      have hdw : List.dropWhile (fun c => c == '0') (c :: t) = c :: t := by
        rw [List.dropWhile_cons, if_neg (by simp [hc])]
      unfold pyIntStr
      rw [hdw]
      simp

theorem fixHead_fixHead (ps : List S) : fixHead (fixHead ps) = fixHead ps := by
  cases ps with
  | nil => rfl
  | cons p rest =>
    by_cases h : pyIsDigit p = true
    · simp [fixHead, h, pyIsDigit_pyIntStr p h, pyIntStr_idem]
    · simp [fixHead, h]

theorem fixHead_cons_of_fix (x : S) (t t' : List S)
    (h : fixHead (x :: t) = x :: t) : fixHead (x :: t') = x :: t' := by
  by_cases hd : pyIsDigit x = true
  · have hx : pyIntStr x = x := by
      simp only [fixHead, hd, if_true] at h
      injection h
    simp [fixHead, hd, hx]
  · simp [fixHead, hd]

theorem escapeQuotes_id (a : S) (h : ∀ c ∈ a, c ≠ qc) : escapeQuotes a = a := by
  induction a with
  | nil => rfl
  | cons c t ih =>
    have hc : (c == qc) = false := by simp [h c (List.mem_cons_self c t)]
    have ht := ih (fun d hd => h d (List.mem_cons_of_mem c hd))
    unfold escapeQuotes at ht ⊢
    rw [List.flatMap_cons, ht, hc]
    simp

theorem pyStrip_eq_self (u : S)
    (hh : ∀ c t, u = c :: t → isPySpace c = false)
    (hl : ∀ c t, u.reverse = c :: t → isPySpace c = false) :
    pyStrip u = u := by
  have h1 : lstrip u = u := by
    cases hu : u with
    | nil => rfl
    | cons c t => simp [lstrip, List.dropWhile_cons, hh c t hu]
  unfold pyStrip
  rw [h1]
  cases hr : u.reverse with
  | nil =>
    have hu : u = [] := by simpa using congrArg List.reverse hr
    rw [hu]
    rfl
  | cons c t =>
    unfold rstrip
    rw [hr, List.dropWhile_cons, if_neg (by simp [hl c t hr])]
    rw [← hr, List.reverse_reverse]

theorem preComma_eq_self (u : S) (h1 : ∀ c ∈ u, c ≠ ',')
    (h2 : pyStrip u = u) : preComma u = u := by
  unfold preComma
  rw [h2]
  exact List.takeWhile_eq_self_iff.mpr (fun c hc => by simp [h1 c hc])

theorem mem_of_mem_takeWhile (p : Char → Bool) :
    ∀ (l : S) (c : Char), c ∈ List.takeWhile p l → c ∈ l := by
  intro l
  induction l with
  | nil => intro c hc; simp at hc
  | cons a t ih =>
    intro c hc
    rw [List.takeWhile_cons] at hc
    by_cases h : p a = true
    · rw [if_pos h] at hc
      rcases List.mem_cons.mp hc with rfl | hc
      · exact List.mem_cons_self _ _
      · exact List.mem_cons_of_mem a (ih c hc)
    · rw [if_neg h] at hc
      simp at hc

theorem mem_of_mem_pyStrip (l : S) (c : Char) (h : c ∈ pyStrip l) : c ∈ l := by
  unfold pyStrip rstrip lstrip at h
  rw [List.mem_reverse] at h
  have h2 : c ∈ (List.dropWhile isPySpace l).reverse :=
    (List.dropWhile_suffix _).sublist.subset h
  rw [List.mem_reverse] at h2
  exact (List.dropWhile_suffix _).sublist.subset h2

theorem takeWhile_eq_cons (p : Char → Bool) (l : S) (c : Char) (t : S)
    (h : List.takeWhile p l = c :: t) : ∃ t', l = c :: t' := by
  cases l with
  | nil => simp at h
  | cons a l' =>
    rw [List.takeWhile_cons] at h
    by_cases ha : p a = true
    · rw [if_pos ha] at h
      injection h with h1 _
      exact ⟨l', by rw [h1]⟩
    · rw [if_neg ha] at h
      simp at h

theorem pyWords_cons_ne_nil (c : Char) (l : S) (hc : isPySpace c = false) :
    pyWords (c :: l) ≠ [] := by
  unfold pyWords
  cases hr : splitOnPred isPySpace l with
  | nil => exact absurd hr (splitOnPred_ne_nil _ _)
  | cons w ws =>
    have hsp : splitOnPred isPySpace (c :: l) = (c :: w) :: ws := by
      simp [splitOnPred, hc, hr]
    rw [hsp]
    simp [List.filter_cons]

theorem goodWord_pyIntStr (w : S) (h : goodWord w) : goodWord (pyIntStr w) := by
  unfold pyIntStr
  by_cases ht : (w.dropWhile (fun c => c == '0')).isEmpty = true
  · rw [if_pos ht]
    decide
  · rw [if_neg ht]
    refine ⟨by simpa using ht, ?_⟩
    intro c hc
    have hsub : w.dropWhile (fun c => c == '0') <:+ w := List.dropWhile_suffix _
    exact h.2 c (hsub.sublist.subset hc)

theorem joinWith_cons_eq (w : S) (rest : List S) :
    ∃ s, joinWith [' '] (w :: rest) = w ++ s := by
  cases rest with
  | nil => exact ⟨[], by simp [joinWith]⟩
  | cons x xs =>
    exact ⟨[' '] ++ joinWith [' '] (x :: xs),
      by rw [joinWith_cons_cons, List.append_assoc]⟩

theorem normalize_structure (addr : S) (hq : qc ∉ addr)
    (h0 : normalize_address_for_search addr ≠ []) :
    ∃ ws : List S,
      ws ≠ [] ∧
      (∀ w ∈ ws, goodWord w) ∧
      fixHead ws = ws ∧
      (∀ pr ∈ suffix_map, ¬ (pr.1 <:+ joinWith [' '] ws)) ∧
      normalize_address_for_search addr =
        '%' :: joinWith [' '] ws ++ ['%'] := by
  have ha : addr.isEmpty = false := by
    cases h' : addr.isEmpty
    · rfl
    · exfalso
      apply h0
      unfold normalize_address_for_search
      rw [if_pos h']
  have hpc : (preComma addr).isEmpty = false := by
    cases h' : (preComma addr).isEmpty
    · rfl
    · exfalso
      apply h0
      unfold normalize_address_for_search
      rw [if_neg (by simp [ha])]
      simp only []
      rw [if_pos h']
  have hnorm : normalize_address_for_search addr =
      '%' :: escapeQuotes (applySuffix
        (joinWith [' '] (fixHead (pyWords ((preComma addr).map pyUpper))))
        suffix_map) ++ ['%'] := by
    unfold normalize_address_for_search
    rw [if_neg (by simp [ha])]
    simp only []
    rw [if_neg (by simp [hpc])]
  have hcomma : ∀ c ∈ preComma addr, c ≠ ',' := by
    intro c hc
    unfold preComma at hc
    have := List.mem_takeWhile_imp hc
    simpa using this
  have hquote : ∀ c ∈ preComma addr, c ≠ qc := by
    intro c hc hceq
    unfold preComma at hc
    have h1 : c ∈ pyStrip addr := mem_of_mem_takeWhile _ _ c hc
    have h2 : c ∈ addr := mem_of_mem_pyStrip addr c h1
    rw [hceq] at h2
    exact hq h2
  have hfix1 : ∀ c ∈ (preComma addr).map pyUpper, fixedChar c := by
    intro c hc
    obtain ⟨d, hd, rfl⟩ := List.mem_map.mp hc
    exact fixedChar_pyUpper d (hcomma d hd) (hquote d hd)
  have hpgood : ∀ w ∈ pyWords ((preComma addr).map pyUpper), goodWord w := by
    intro w hw
    unfold pyWords at hw
    rw [List.mem_filter] at hw
    obtain ⟨hw1, hw2⟩ := hw
    refine ⟨by simpa using hw2, ?_⟩
    intro c hc
    obtain ⟨hc1, hc2⟩ := mem_splitOnPred isPySpace _ w hw1 c hc
    exact ⟨hc1, hfix1 c hc2⟩
  obtain ⟨c0, t0, hpc0⟩ : ∃ c0 t0, preComma addr = c0 :: t0 := by
    cases hp : preComma addr with
    | nil => rw [hp] at hpc; simp at hpc
    | cons c0 t0 => exact ⟨c0, t0, rfl⟩
  have hc0 : isPySpace c0 = false := by
    have h1 : List.takeWhile (fun c => c != ',') (pyStrip addr) = c0 :: t0 := hpc0
    obtain ⟨t', ht'⟩ := takeWhile_eq_cons _ _ _ _ h1
    have h2 : lstrip addr =
        pyStrip addr ++ ((lstrip addr).reverse.takeWhile isPySpace).reverse :=
      rstrip_append (lstrip addr)
    rw [ht'] at h2
    exact dropWhile_head_false isPySpace addr c0 _
      (by simpa [lstrip, List.cons_append] using h2)
  have hpartsne : pyWords ((preComma addr).map pyUpper) ≠ [] := by
    rw [hpc0, List.map_cons]
    exact pyWords_cons_ne_nil _ _ (by rw [isPySpace_pyUpper]; exact hc0)
  have hws0good : ∀ w ∈ fixHead (pyWords ((preComma addr).map pyUpper)),
      goodWord w := by
    cases hp : pyWords ((preComma addr).map pyUpper) with
    | nil => exact absurd hp hpartsne
    | cons p rest =>
      intro w hw
      simp only [fixHead] at hw
      by_cases hd : pyIsDigit p = true
      · rw [if_pos hd] at hw
        rcases List.mem_cons.mp hw with rfl | hw
        · exact goodWord_pyIntStr p
            (hpgood p (by rw [hp]; exact List.mem_cons_self _ _))
        · exact hpgood w (by rw [hp]; exact List.mem_cons_of_mem p hw)
      · rw [if_neg hd] at hw
        rcases List.mem_cons.mp hw with rfl | hw
        · exact hpgood w (by rw [hp]; exact List.mem_cons_self _ _)
        · exact hpgood w (by rw [hp]; exact List.mem_cons_of_mem p hw)
  have hws0ne : fixHead (pyWords ((preComma addr).map pyUpper)) ≠ [] := by
    cases hp : pyWords ((preComma addr).map pyUpper) with
    | nil => exact absurd hp hpartsne
    | cons p rest =>
      simp only [fixHead]
      by_cases hd : pyIsDigit p = true
      · simp [hd]
      · simp [hd]
  rcases applySuffix_analysis
      (joinWith [' '] (fixHead (pyWords ((preComma addr).map pyUpper))))
      suffix_map with ⟨hall, heq⟩ | ⟨pr, hpr, hsuf, heq⟩
  · refine ⟨fixHead (pyWords ((preComma addr).map pyUpper)), hws0ne, hws0good,
      fixHead_fixHead _, hall, ?_⟩
    have hnoq : ∀ c ∈
        joinWith [' '] (fixHead (pyWords ((preComma addr).map pyUpper))),
        c ≠ qc := by
      intro c hc
      rcases mem_joinWith [' '] _ c hc with hc | ⟨w, hw, hcw⟩
      · have hcs : c = ' ' := by simpa using hc
        subst hcs
        decide
      · obtain ⟨-, -, -, h4⟩ := (hws0good w hw).2 c hcw
        exact h4
    rw [hnorm, heq, escapeQuotes_id _ hnoq]
  · have hSM1 : ∀ q ∈ suffix_map, q.1 = ' ' :: q.1.drop 1 ∧
        goodWord (q.1.drop 1) ∧ q.2 = ' ' :: q.2.drop 1 ∧
        goodWord (q.2.drop 1) := by decide
    have hSM2 : ∀ q ∈ suffix_map, ∀ q' ∈ suffix_map,
        q.1.drop 1 ≠ q'.2.drop 1 := by decide
    obtain ⟨lw, hlw, hlwg⟩ : ∃ lw, pr.1 = ' ' :: lw ∧ goodWord lw :=
      ⟨pr.1.drop 1, (hSM1 pr hpr).1, (hSM1 pr hpr).2.1⟩
    obtain ⟨sw, hsw, hswg⟩ : ∃ sw, pr.2 = ' ' :: sw ∧ goodWord sw :=
      ⟨pr.2.drop 1, (hSM1 pr hpr).2.2.1, (hSM1 pr hpr).2.2.2⟩
    have hsuf' : (' ' :: lw) <:+
        joinWith [' '] (fixHead (pyWords ((preComma addr).map pyUpper))) := by
      rw [← hlw]
      exact hsuf
    obtain ⟨init, hinit_eq, hinit_ne⟩ := suffix_word_decomp
      (fixHead (pyWords ((preComma addr).map pyUpper))) lw
      (fun w hw => ⟨(hws0good w hw).1, fun c hc => ((hws0good w hw).2 c hc).1⟩)
      ⟨hlwg.1, fun c hc => (hlwg.2 c hc).1⟩ hsuf' hws0ne
    have hjoin : joinWith [' '] (fixHead (pyWords ((preComma addr).map pyUpper))) =
        joinWith [' '] init ++ ' ' :: lw := by
      rw [hinit_eq, joinWith_append_singleton _ _ _ hinit_ne, List.append_assoc]
      rfl
    have htake : (joinWith [' ']
        (fixHead (pyWords ((preComma addr).map pyUpper)))).take
        ((joinWith [' ']
          (fixHead (pyWords ((preComma addr).map pyUpper)))).length -
          pr.1.length) = joinWith [' '] init := by
      rw [hjoin, hlw, List.length_append]
      have harith : (joinWith [' '] init).length + (' ' :: lw).length -
          (' ' :: lw).length = (joinWith [' '] init).length := by omega
      rw [harith]
      exact List.take_left _ _
    have happ : applySuffix
        (joinWith [' '] (fixHead (pyWords ((preComma addr).map pyUpper))))
        suffix_map = joinWith [' '] (init ++ [sw]) := by
      rw [heq, htake, hsw, joinWith_append_singleton _ _ _ hinit_ne,
        List.append_assoc]
      rfl
    have hwsgood : ∀ w ∈ init ++ [sw], goodWord w := by
      intro w hw
      rcases List.mem_append.mp hw with hw | hw
      · exact hws0good w (by rw [hinit_eq]; exact List.mem_append.mpr (Or.inl hw))
      · rw [List.mem_singleton] at hw
        subst hw
        exact hswg
    have hwsne : init ++ [sw] ≠ [] := by simp
    have hfixws : fixHead (init ++ [sw]) = init ++ [sw] := by
      cases hi : init with
      | nil => exact absurd hi hinit_ne
      | cons i0 irest =>
        have h1 : fixHead (i0 :: (irest ++ [lw])) = i0 :: (irest ++ [lw]) := by
          have hff := fixHead_fixHead (pyWords ((preComma addr).map pyUpper))
          rw [hinit_eq, hi] at hff
          simpa using hff
        simp only [List.cons_append]
        exact fixHead_cons_of_fix i0 (irest ++ [lw]) (irest ++ [sw]) h1
    have hnomatch : ∀ q ∈ suffix_map,
        ¬ (q.1 <:+ joinWith [' '] (init ++ [sw])) := by
      intro q hq hqs
      obtain ⟨lw', hlw', hlwg'⟩ : ∃ lw', q.1 = ' ' :: lw' ∧ goodWord lw' :=
        ⟨q.1.drop 1, (hSM1 q hq).1, (hSM1 q hq).2.1⟩
      rw [hlw'] at hqs
      obtain ⟨t, ht⟩ := hqs
      have h1 : trailingRun (joinWith [' '] (init ++ [sw])) = sw.reverse :=
        trailingRun_join init sw ⟨hswg.1, fun c hc => (hswg.2 c hc).1⟩
      have h2 : trailingRun (joinWith [' '] (init ++ [sw])) = lw'.reverse := by
        rw [← ht]
        exact trailingRun_append_sep t lw' (fun c hc => (hlwg'.2 c hc).1)
      have heqw : lw' = sw := List.reverse_inj.mp (h2.symm.trans h1)
      have hd1 : q.1.drop 1 = lw' := by rw [hlw']; simp
      have hd2 : pr.2.drop 1 = sw := by rw [hsw]; simp
      exact hSM2 q hq pr hpr (by rw [hd1, hd2, heqw])
    refine ⟨init ++ [sw], hwsne, hwsgood, hfixws, hnomatch, ?_⟩
    have hnoq : ∀ c ∈ joinWith [' '] (init ++ [sw]), c ≠ qc := by
      intro c hc
      rcases mem_joinWith [' '] _ c hc with hc | ⟨w, hw, hcw⟩
      · have hcs : c = ' ' := by simpa using hc
        subst hcs
        decide
      · obtain ⟨-, -, -, h4⟩ := (hwsgood w hw).2 c hcw
        exact h4
    rw [hnorm, happ, escapeQuotes_id _ hnoq]

/-- Claim C5 as stated is false: the quote-escaping step doubles every single
quote on each pass, so normalizing the underlying text of an already
normalized pattern of an address containing an apostrophe yields a different
pattern (the quotes double again). -/
theorem C5_counterexample :
    normalize_address_for_search (unwrapPattern (normalize_address_for_search
        (strL "1 O" ++ [qc] ++ strL "Hara Street"))) ≠
      normalize_address_for_search (strL "1 O" ++ [qc] ++ strL "Hara Street") := by
  decide

/-- Claim C5 (amended): for every address string containing no single-quote
character, taking the normalized pattern's underlying address text (the
pattern without its wildcard wrapping) and normalizing it a second time
yields the same pattern as the first normalization. -/
theorem C5_normalize_idem (addr : S) (hq : qc ∉ addr) :
    normalize_address_for_search
        (unwrapPattern (normalize_address_for_search addr)) =
      normalize_address_for_search addr := by
  by_cases h0 : normalize_address_for_search addr = []
  · rw [h0]
    rfl
  · obtain ⟨ws, hne, hgood, hfix, hnm, heq⟩ := normalize_structure addr hq h0
    have hunwrap : unwrapPattern (normalize_address_for_search addr) =
        joinWith [' '] ws := by
      rw [heq]
      unfold unwrapPattern
      simp [List.dropLast_concat]
    rw [hunwrap, heq]
    have hwordmem : ∀ c ∈ joinWith [' '] ws,
        c = ' ' ∨ (isPySpace c = false ∧ fixedChar c) := by
      intro c hc
      rcases mem_joinWith [' '] ws c hc with hc | ⟨w, hw, hcw⟩
      · left
        simpa using hc
      · right
        exact (hgood w hw).2 c hcw
    have hNoComma : ∀ c ∈ joinWith [' '] ws, c ≠ ',' := by
      intro c hc
      rcases hwordmem c hc with rfl | ⟨-, -, h2, -⟩
      · decide
      · exact h2
    have hNoQc : ∀ c ∈ joinWith [' '] ws, c ≠ qc := by
      intro c hc
      rcases hwordmem c hc with rfl | ⟨-, -, -, h3⟩
      · decide
      · exact h3
    have hUpper : ∀ c ∈ joinWith [' '] ws, pyUpper c = c := by
      intro c hc
      rcases hwordmem c hc with rfl | ⟨-, h1, -, -⟩
      · decide
      · exact h1
    have hune : joinWith [' '] ws ≠ [] :=
      joinWith_ne_nil ws hne (fun w hw => (hgood w hw).1)
    have hue : (joinWith [' '] ws).isEmpty = false := by
      cases hu' : joinWith [' '] ws with
      | nil => exact absurd hu' hune
      | cons _ _ => rfl
    have hhead : ∀ c t, joinWith [' '] ws = c :: t → isPySpace c = false := by
      intro c t hct
      cases ws with
      | nil => exact absurd rfl hne
      | cons w rest =>
        obtain ⟨c1, t1, hw⟩ : ∃ c1 t1, w = c1 :: t1 := by
          cases hw : w with
          | nil => exact absurd hw (hgood w (List.mem_cons_self _ _)).1
          | cons c1 t1 => exact ⟨c1, t1, rfl⟩
        obtain ⟨s, hs⟩ := joinWith_cons_eq w rest
        rw [hs, hw, List.cons_append] at hct
        injection hct with hceq _
        rw [← hceq]
        exact ((hgood w (List.mem_cons_self _ _)).2 c1
          (by rw [hw]; exact List.mem_cons_self _ _)).1
    have hlast : ∀ c t, (joinWith [' '] ws).reverse = c :: t →
        isPySpace c = false := by
      intro c t hct
      rcases List.eq_nil_or_concat ws with rfl | ⟨init, wn, hcat⟩
      · exact absurd rfl hne
      · rw [List.concat_eq_append] at hcat
        have hwn := hgood wn (by rw [hcat]; simp)
        have htr : trailingRun (joinWith [' '] ws) = wn.reverse := by
          rw [hcat]
          exact trailingRun_join init wn
            ⟨hwn.1, fun d hd => (hwn.2 d hd).1⟩
        by_cases hc : isPySpace c = true
        · unfold trailingRun at htr
          rw [hct, List.takeWhile_cons, if_neg (by simp [hc])] at htr
          have hwnn : wn = [] := by simpa using htr.symm
          exact absurd hwnn hwn.1
        · simpa using hc
    have hstrip : pyStrip (joinWith [' '] ws) = joinWith [' '] ws :=
      pyStrip_eq_self _ hhead hlast
    have hprecomma : preComma (joinWith [' '] ws) = joinWith [' '] ws :=
      preComma_eq_self _ hNoComma hstrip
    have hupper : (joinWith [' '] ws).map pyUpper = joinWith [' '] ws := by
      calc (joinWith [' '] ws).map pyUpper
          = (joinWith [' '] ws).map id := List.map_congr_left hUpper
      _ = joinWith [' '] ws := List.map_id _
    have hwords : pyWords (joinWith [' '] ws) = ws :=
      pyWords_joinWith ws
        (fun w hw => ⟨(hgood w hw).1, fun c hc => ((hgood w hw).2 c hc).1⟩)
    have hsuffix : applySuffix (joinWith [' '] ws) suffix_map =
        joinWith [' '] ws := applySuffix_no_match _ suffix_map hnm
    have hesc : escapeQuotes (joinWith [' '] ws) = joinWith [' '] ws :=
      escapeQuotes_id _ hNoQc
    unfold normalize_address_for_search
    rw [if_neg (by simp [hue])]
    simp only []
    rw [hprecomma, if_neg (by simp [hue])]
    rw [hupper, hwords, hfix, hsuffix, hesc]

/-- Witness for C5: the idempotence instance on a concrete quote-free
address. -/
theorem C5_witness :
    normalize_address_for_search (unwrapPattern (normalize_address_for_search
        (strL "780 Union Street, Philadelphia, PA"))) =
      normalize_address_for_search (strL "780 Union Street, Philadelphia, PA") :=
  C5_normalize_idem (strL "780 Union Street, Philadelphia, PA") (by decide)

end PhillyAssessment
